import Mathlib

/-!
Shallow embedding of `src/codecs/dds/bc.rs` (BC1–BC7 block decoders).

Bytes are modelled as natural numbers below 256; a compressed block is a
function `Fin 8 → ℕ` or `Fin 16 → ℕ`. Machine arithmetic that cannot
overflow in the source (shown below) is modelled directly on `ℕ`.
The helper module `convert.rs` (`x4_to_x8`, `x5_to_x8`, `B5G6R5`,
`snorm8_to_unorm8`) is not part of the sources at hand; those leaves are
modelled from the specification text and marked as such.
-/

namespace BC

/-- An RGBA pixel, one natural number per 8-bit channel. -/
structure RGBA where
  r : ℕ
  g : ℕ
  b : ℕ
  a : ℕ
deriving DecidableEq, Repr

/-- A 3-channel pixel as produced by the BC5 decoders. -/
structure RGB where
  r : ℕ
  g : ℕ
  b : ℕ
deriving DecidableEq, Repr

/-- `u16::from_le_bytes([b0, b1])`. -/
def u16_from_le_bytes (b0 b1 : ℕ) : ℕ := b0 + b1 * 256

/-- `u32::from_le_bytes([b0, b1, b2, 0])` (24-bit value, as used by BC4). -/
def u24_from_le_bytes (b0 b1 b2 : ℕ) : ℕ := b0 + b1 * 256 + b2 * 65536

/-- `u32::from_le_bytes([b0, b1, b2, b3])`. -/
def u32_from_le_bytes (b0 b1 b2 b3 : ℕ) : ℕ :=
  b0 + b1 * 256 + b2 * 65536 + b3 * 16777216

/-- First 8 bytes of a 16-byte block (`block_bytes[0..8]`). -/
def firstHalf (block : Fin 16 → ℕ) : Fin 8 → ℕ :=
  fun i => block ⟨i.val, by omega⟩

/-- Second 8 bytes of a 16-byte block (`block_bytes[8..16]`). -/
def secondHalf (block : Fin 16 → ℕ) : Fin 8 → ℕ :=
  fun i => block ⟨i.val + 8, by have := i.isLt; omega⟩

/-- Modelled from the spec: `x4_to_x8` from `convert.rs` expands a 4-bit
value to 8 bits by bit replication. -/
def x4_to_x8 (x : ℕ) : ℕ := (x <<< 4) ||| x

/-- Modelled from the spec: 5-bit-to-8-bit expansion by bit replication
(repeating the most significant bits into the low bits). -/
def x5_to_x8 (x : ℕ) : ℕ := (x <<< 3) ||| (x >>> 2)

/-- Modelled from the spec: 6-bit-to-8-bit expansion by bit replication. -/
def x6_to_x8 (x : ℕ) : ℕ := (x <<< 2) ||| (x >>> 4)

/-- A B5G6R5 packed color: 5-bit blue, 6-bit green, 5-bit red fields. -/
structure B5G6R5 where
  b : ℕ
  g : ℕ
  r : ℕ
deriving DecidableEq, Repr

/-- Modelled from the spec: the packed-color unpack helper splits a 16-bit
value into 5-bit/6-bit/5-bit channel fields. -/
def B5G6R5.from_u16 (u : ℕ) : B5G6R5 :=
  ⟨u &&& 31, (u >>> 5) &&& 63, (u >>> 11) &&& 31⟩

/-- Modelled from the spec: expand each field by bit replication,
alpha fixed at full opacity. -/
def B5G6R5.to_rgba8 (c : B5G6R5) : RGBA :=
  ⟨x5_to_x8 c.r, x6_to_x8 c.g, x5_to_x8 c.b, 255⟩

/-- Round-half-up division `round(n / d)` computed in integers as
`(2*n + d) / (2*d)`. -/
def roundHalfUpDiv (n d : ℕ) : ℕ := (2 * n + d) / (2 * d)

/-- Modelled from the spec: linear interpolation of one expanded channel at
blend fraction `num/den`, rounded to nearest. -/
def blendChannel (a b num den : ℕ) : ℕ :=
  roundHalfUpDiv (a * (den - num) + b * num) den

/-- Modelled from the spec: `B5G6R5::blend_rgba8` linearly interpolates two
expanded color triples at blend fraction `num/den` (the source passes the
fractions 1/3, 2/3 and 1/2), producing an RGBA pixel with alpha fixed at
full opacity. -/
def B5G6R5.blend_rgba8 (c0 c1 : B5G6R5) (num den : ℕ) : RGBA :=
  ⟨blendChannel (x5_to_x8 c0.r) (x5_to_x8 c1.r) num den,
   blendChannel (x6_to_x8 c0.g) (x6_to_x8 c1.g) num den,
   blendChannel (x5_to_x8 c0.b) (x5_to_x8 c1.b) num den,
   255⟩

/-- The 2-bit palette index of pixel `i` in a BC1 block:
`(indexes >> (i * 2)) & 0b11` where `indexes` is the little-endian u32
read from bytes 4–7. -/
def bc1_index (block : Fin 8 → ℕ) (i : Fin 16) : ℕ :=
  (u32_from_le_bytes (block 4) (block 5) (block 6) (block 7) >>> (i.val * 2)) &&& 3

lemma bc1_index_lt (block : Fin 8 → ℕ) (i : Fin 16) : bc1_index block i < 4 :=
  Nat.lt_succ_of_le Nat.and_le_right

/-- The 4-entry color palette built by `decode_bc1_block`:
`[c0, c1, c2, c3]` with the conditional third and fourth entries. -/
def bc1_palette (block : Fin 8 → ℕ) : Fin 4 → RGBA :=
  let color0_u16 := u16_from_le_bytes (block 0) (block 1)
  let color1_u16 := u16_from_le_bytes (block 2) (block 3)
  let c0_bgr := B5G6R5.from_u16 color0_u16
  let c1_bgr := B5G6R5.from_u16 color1_u16
  let c0 := c0_bgr.to_rgba8
  let c1 := c1_bgr.to_rgba8
  if color0_u16 > color1_u16 then
    ![c0, c1, c0_bgr.blend_rgba8 c1_bgr 1 3, c0_bgr.blend_rgba8 c1_bgr 2 3]
  else
    ![c0, c1, c0_bgr.blend_rgba8 c1_bgr 1 2, ⟨0, 0, 0, 0⟩]

/-- `decode_bc1_block`: 16 RGBA pixels, pixel `i` selected from the palette
by its 2-bit index. -/
def decode_bc1_block (block : Fin 8 → ℕ) : Fin 16 → RGBA :=
  fun i => bc1_palette block ⟨bc1_index block i, bc1_index_lt block i⟩

/-- The 6-way interpolation in `decode_bc4_unsigned_block`:
`((c0 * (7 - f) * 2 + c1 * f * 2 + 7) / 14)`. -/
def interpolate6 (c0 c1 f : ℕ) : ℕ := (c0 * (7 - f) * 2 + c1 * f * 2 + 7) / 14

/-- The 4-way interpolation in `decode_bc4_unsigned_block`:
`((c0 * (5 - f) * 2 + c1 * f * 2 + 5) / 10)`. -/
def interpolate4 (c0 c1 f : ℕ) : ℕ := (c0 * (5 - f) * 2 + c1 * f * 2 + 5) / 10

/-- The 3-bit palette index of pixel `p` in a BC4 block: bytes 2–4 and 5–7
are read as two 24-bit little-endian index groups, `(indexes >> (j * 3)) & 0b111`. -/
def bc4_index (block : Fin 8 → ℕ) (p : Fin 16) : ℕ :=
  let indexes0 := u24_from_le_bytes (block 2) (block 3) (block 4)
  let indexes1 := u24_from_le_bytes (block 5) (block 6) (block 7)
  if p.val < 8 then (indexes0 >>> (p.val * 3)) &&& 7
  else (indexes1 >>> ((p.val - 8) * 3)) &&& 7

lemma bc4_index_lt (block : Fin 8 → ℕ) (p : Fin 16) : bc4_index block p < 8 := by
  unfold bc4_index
  dsimp only
  split <;> exact Nat.lt_succ_of_le Nat.and_le_right

/-- The 8-entry palette `[c0, c1, c2, c3, c4, c5, c6, c7]` built by
`decode_bc4_unsigned_block`: 6 interpolated colors when `c0 > c1`, else 4
interpolated colors plus the fixed entries 0 and 255. -/
def bc4_unsigned_palette (block : Fin 8 → ℕ) : Fin 8 → ℕ :=
  let c0 := block 0
  let c1 := block 1
  if c0 > c1 then
    ![c0, c1, interpolate6 c0 c1 1, interpolate6 c0 c1 2, interpolate6 c0 c1 3,
      interpolate6 c0 c1 4, interpolate6 c0 c1 5, interpolate6 c0 c1 6]
  else
    ![c0, c1, interpolate4 c0 c1 1, interpolate4 c0 c1 2, interpolate4 c0 c1 3,
      interpolate4 c0 c1 4, 0, 255]

/-- `decode_bc4_unsigned_block`: 16 single-channel pixels, pixel `p`
selected from the palette by its 3-bit index. -/
def decode_bc4_unsigned_block (block : Fin 8 → ℕ) : Fin 16 → ℕ :=
  fun p => bc4_unsigned_palette block ⟨bc4_index block p, bc4_index_lt block p⟩

/-- The value `byte.wrapping_add(128).saturating_sub(1)` shared by the
signed-to-unsigned conversion and the signed interpolation pre-scaling
(natural-number subtraction saturates at 0 exactly like `saturating_sub`). -/
def snorm_pre (b : ℕ) : ℕ := (b + 128) % 256 - 1

/-- Modelled from the spec: `snorm8_to_unorm8` from `convert.rs` maps an
8-bit signed-normalized sample to 0..255 by the exact affine transform
`(clamp(value,-127,127) + 127) * 255 / 254` rounded to nearest, i.e.
`round(snorm_pre b * 255 / 254)`. -/
def snorm8_to_unorm8 (b : ℕ) : ℕ := roundHalfUpDiv (snorm_pre b * 255) 254

/-- The interpolation in `decode_bc4_signed_block` at blend fraction
`num/den`: the source computes `c_f = snorm_pre(byte) as f32 / 254.0 * 255.0`
and `(c0_f * (1 - blend) + c1_f * blend).round()` in 32-bit floating point;
it is modelled here as the exact real-valued affine blend
`(s0*(den-num) + s1*num) * 255 / (254*den)` rounded half up. The theorems
below never depend on the numeric values of this function, only on how the
decoders compose it. -/
def bc4s_interpolate (s0 s1 num den : ℕ) : ℕ :=
  roundHalfUpDiv ((s0 * (den - num) + s1 * num) * 255) (254 * den)

/-- The 8-entry palette built by `decode_bc4_signed_block`: references are
converted through `snorm8_to_unorm8`, the mode comparison is on the
converted values, and interpolation runs on the pre-scaled float values. -/
def bc4_signed_palette (block : Fin 8 → ℕ) : Fin 8 → ℕ :=
  let red0 := block 0
  let red1 := block 1
  let c0 := snorm8_to_unorm8 red0
  let c1 := snorm8_to_unorm8 red1
  let s0 := snorm_pre red0
  let s1 := snorm_pre red1
  if c0 > c1 then
    ![c0, c1, bc4s_interpolate s0 s1 1 7, bc4s_interpolate s0 s1 2 7,
      bc4s_interpolate s0 s1 3 7, bc4s_interpolate s0 s1 4 7,
      bc4s_interpolate s0 s1 5 7, bc4s_interpolate s0 s1 6 7]
  else
    ![c0, c1, bc4s_interpolate s0 s1 1 5, bc4s_interpolate s0 s1 2 5,
      bc4s_interpolate s0 s1 3 5, bc4s_interpolate s0 s1 4 5, 0, 255]

/-- `decode_bc4_signed_block`: 16 single-channel pixels; the index stream
is read exactly as in the unsigned variant. -/
def decode_bc4_signed_block (block : Fin 8 → ℕ) : Fin 16 → ℕ :=
  fun p => bc4_signed_palette block ⟨bc4_index block p, bc4_index_lt block p⟩

/-- The explicit 4-bit alpha of pixel `p` in a BC2 block. The source loop
(`for i in 0..4`) reads `alpha_bytes[i*2]` and `alpha_bytes[i*2+1]` and
writes pixels `i*4 + j` for `j = 0..3` with the nibbles
`[high & 0xF, high >> 4, low & 0xF, low >> 4]` expanded by `x4_to_x8`;
pixel `p` corresponds to `i = p / 4`, `j = p % 4`. -/
def bc2_alpha (block : Fin 16 → ℕ) (p : Fin 16) : ℕ :=
  let i := p.val / 4
  let alpha_byte_high := block ⟨i * 2, by have := p.isLt; omega⟩
  let alpha_byte_low := block ⟨i * 2 + 1, by have := p.isLt; omega⟩
  x4_to_x8 (if p.val % 4 = 0 then alpha_byte_high &&& 15
    else if p.val % 4 = 1 then alpha_byte_high >>> 4
    else if p.val % 4 = 2 then alpha_byte_low &&& 15
    else alpha_byte_low >>> 4)

/-- `decode_bc2_block`: BC1 color from the second 8 bytes, then the loop
overwrites each pixel's alpha channel (each pixel exactly once) with its
explicit 4-bit alpha. -/
def decode_bc2_block (block : Fin 16 → ℕ) : Fin 16 → RGBA :=
  fun p =>
    let c := decode_bc1_block (secondHalf block) p
    ⟨c.r, c.g, c.b, bc2_alpha block p⟩

/-- `decode_bc3_block`: BC1 color from the second 8 bytes, then the nested
loop (`pixels[i*4+j][3] = alpha[i*4+j][0]`, covering each of the 16 pixels
exactly once) overwrites each pixel's alpha channel with the BC4-unsigned
decode of the first 8 bytes. -/
def decode_bc3_block (block : Fin 16 → ℕ) : Fin 16 → RGBA :=
  fun p =>
    let c := decode_bc1_block (secondHalf block) p
    ⟨c.r, c.g, c.b, decode_bc4_unsigned_block (firstHalf block) p⟩

/-- `decode_bc5_unsigned_block`: two independent BC4-unsigned channels and
a fixed 0 blue channel. -/
def decode_bc5_unsigned_block (block : Fin 16 → ℕ) : Fin 16 → RGB :=
  fun p =>
    ⟨decode_bc4_unsigned_block (firstHalf block) p,
     decode_bc4_unsigned_block (secondHalf block) p, 0⟩

/-- `decode_bc5_signed_block`: two independent BC4-signed channels and a
fixed 128 blue channel. -/
def decode_bc5_signed_block (block : Fin 16 → ℕ) : Fin 16 → RGB :=
  fun p =>
    ⟨decode_bc4_signed_block (firstHalf block) p,
     decode_bc4_signed_block (secondHalf block) p, 128⟩

/-- `decode_bc7_block`: the source body is `todo!()`, which aborts
unconditionally and never produces a pixel array; the fatal outcome is
modelled as an `Option` result that is always `none`. -/
def decode_bc7_block (_block : Fin 16 → ℕ) : Option (Fin 16 → RGBA) :=
  none

/-- Follows the spec's words, not the source: the claimed scaled integer
interpolation formula `(ref0*(D-1-f)*2 + ref1*f*2 + (D-1)) / (2*(D-1))`
with `D = 7` in 6-way mode and `D = 5` in 4-way mode. -/
def spec_claimed_interpolate (ref0 ref1 D f : ℕ) : ℕ :=
  (ref0 * (D - 1 - f) * 2 + ref1 * f * 2 + (D - 1)) / (2 * (D - 1))

/-- C1 counterexample: for the BC4-unsigned block with reference bytes
`(255, 0)` (6-way mode), the palette value at index 2 is 219, while the
claimed formula with `D = 7`, `f = 1` — equivalently the claimed
`round(255*(6-1)/6)` — gives 213. -/
theorem claim_C1_counterexample :
    bc4_unsigned_palette ![255, 0, 0, 0, 0, 0, 0, 0] 2 = 219 ∧
    spec_claimed_interpolate 255 0 7 1 = 213 ∧
    roundHalfUpDiv (255 * (6 - 1)) 6 = 213 ∧
    bc4_unsigned_palette ![255, 0, 0, 0, 0, 0, 0, 0] 2 ≠
      spec_claimed_interpolate 255 0 7 1 := by
  decide

lemma bc4_unsigned_palette_pos (block : Fin 8 → ℕ) (h : block 0 > block 1) :
    bc4_unsigned_palette block =
      ![block 0, block 1, interpolate6 (block 0) (block 1) 1,
        interpolate6 (block 0) (block 1) 2, interpolate6 (block 0) (block 1) 3,
        interpolate6 (block 0) (block 1) 4, interpolate6 (block 0) (block 1) 5,
        interpolate6 (block 0) (block 1) 6] := by
  unfold bc4_unsigned_palette
  simp [h]

lemma bc4_unsigned_palette_nonpos (block : Fin 8 → ℕ) (h : ¬ block 0 > block 1) :
    bc4_unsigned_palette block =
      ![block 0, block 1, interpolate4 (block 0) (block 1) 1,
        interpolate4 (block 0) (block 1) 2, interpolate4 (block 0) (block 1) 3,
        interpolate4 (block 0) (block 1) 4, 0, 255] := by
  unfold bc4_unsigned_palette
  simp [h]

/-- C1 (amended): each interpolated BC4-unsigned palette value is computed
by the scaled integer formula `(ref0*(D-f)*2 + ref1*f*2 + D) / (2*D)` with
`D = 7` in 6-way mode and `D = 5` in 4-way mode; in particular, for
reference bytes `(255, 0)` the palette values at indices 2–7 equal
`round-half-up(255*(7-k)/7)` for `k = 1..6`. -/
theorem claim_C1_amended (block : Fin 8 → ℕ) :
    (block 0 > block 1 → ∀ f : Fin 6,
      bc4_unsigned_palette block ⟨f.val + 2, by have := f.isLt; omega⟩ =
        (block 0 * (7 - (f.val + 1)) * 2 + block 1 * (f.val + 1) * 2 + 7) / (2 * 7)) ∧
    (¬ block 0 > block 1 → ∀ f : Fin 4,
      bc4_unsigned_palette block ⟨f.val + 2, by have := f.isLt; omega⟩ =
        (block 0 * (5 - (f.val + 1)) * 2 + block 1 * (f.val + 1) * 2 + 5) / (2 * 5)) ∧
    (∀ f : Fin 6,
      bc4_unsigned_palette ![255, 0, 0, 0, 0, 0, 0, 0] ⟨f.val + 2, by have := f.isLt; omega⟩ =
        roundHalfUpDiv (255 * (7 - (f.val + 1))) 7) := by
  refine ⟨fun h f => ?_, fun h f => ?_, fun f => ?_⟩
  · rw [bc4_unsigned_palette_pos block h]
    fin_cases f <;> rfl
  · rw [bc4_unsigned_palette_nonpos block h]
    fin_cases f <;> rfl
  · fin_cases f <;> decide

/-- Closed instance of `claim_C1_amended` at the block with reference
bytes `(255, 0)`, discharging the mode hypothesis. -/
theorem claim_C1_amended_witness :
    ((![255, 0, 0, 0, 0, 0, 0, 0] : Fin 8 → ℕ) 0 > (![255, 0, 0, 0, 0, 0, 0, 0] : Fin 8 → ℕ) 1) ∧
    bc4_unsigned_palette ![255, 0, 0, 0, 0, 0, 0, 0] ⟨0 + 2, by omega⟩ =
      ((![255, 0, 0, 0, 0, 0, 0, 0] : Fin 8 → ℕ) 0 * (7 - (0 + 1)) * 2 +
        (![255, 0, 0, 0, 0, 0, 0, 0] : Fin 8 → ℕ) 1 * (0 + 1) * 2 + 7) / (2 * 7) :=
  ⟨by decide, (claim_C1_amended ![255, 0, 0, 0, 0, 0, 0, 0]).1 (by decide) ⟨0, by omega⟩⟩

/-- C2: in 6-way mode (reference byte 0 strictly greater than reference
byte 1) the BC4-unsigned palette slots 2–7 are the round-half-up values at
weights 1/7..6/7 between the references; otherwise slots 2–5 are at weights
1/5..4/5 and slots 6 and 7 are the fixed values 0 and 255. -/
theorem claim_C2_bc4_unsigned_modes (block : Fin 8 → ℕ) :
    (block 0 > block 1 → ∀ f : Fin 6,
      bc4_unsigned_palette block ⟨f.val + 2, by have := f.isLt; omega⟩ =
        roundHalfUpDiv (block 0 * (6 - f.val) + block 1 * (f.val + 1)) 7) ∧
    (¬ block 0 > block 1 →
      (∀ f : Fin 4,
        bc4_unsigned_palette block ⟨f.val + 2, by have := f.isLt; omega⟩ =
          roundHalfUpDiv (block 0 * (4 - f.val) + block 1 * (f.val + 1)) 5) ∧
      bc4_unsigned_palette block 6 = 0 ∧ bc4_unsigned_palette block 7 = 255) := by
  constructor
  · intro h f
    rw [bc4_unsigned_palette_pos block h]
    fin_cases f <;>
      · simp only [interpolate6, roundHalfUpDiv]
        norm_num
        congr 1
        ring
  · intro h
    rw [bc4_unsigned_palette_nonpos block h]
    refine ⟨fun f => ?_, rfl, rfl⟩
    fin_cases f <;>
      · simp only [interpolate4, roundHalfUpDiv]
        norm_num
        congr 1
        ring

/-- Closed instance of `claim_C2_bc4_unsigned_modes` at blocks in each
mode, discharging the mode hypotheses. -/
theorem claim_C2_bc4_unsigned_modes_witness :
    bc4_unsigned_palette ![255, 0, 0, 0, 0, 0, 0, 0] ⟨0 + 2, by omega⟩ =
      roundHalfUpDiv ((![255, 0, 0, 0, 0, 0, 0, 0] : Fin 8 → ℕ) 0 * (6 - 0) +
        (![255, 0, 0, 0, 0, 0, 0, 0] : Fin 8 → ℕ) 1 * (0 + 1)) 7 ∧
    bc4_unsigned_palette ![0, 255, 0, 0, 0, 0, 0, 0] 6 = 0 ∧
    bc4_unsigned_palette ![0, 255, 0, 0, 0, 0, 0, 0] 7 = 255 :=
  ⟨(claim_C2_bc4_unsigned_modes ![255, 0, 0, 0, 0, 0, 0, 0]).1 (by decide) ⟨0, by omega⟩,
   ((claim_C2_bc4_unsigned_modes ![0, 255, 0, 0, 0, 0, 0, 0]).2 (by decide)).2⟩

/-- C3: the BC1 decoder is in 3-color transparent mode exactly when
`c0 ≤ c1` as raw little-endian 16-bit integers (palette slot 2 the 1/2
blend and slot 3 transparent black `[0,0,0,0]`), and in 4-color opaque
mode exactly when `c0 > c1` (slots 2 and 3 the 1/3 and 2/3 blends); the
transparent-black slot 3 characterizes 3-color mode. -/
theorem claim_C3_bc1_mode_selection (block : Fin 8 → ℕ) :
    (u16_from_le_bytes (block 0) (block 1) ≤ u16_from_le_bytes (block 2) (block 3) →
      bc1_palette block 2 =
        (B5G6R5.from_u16 (u16_from_le_bytes (block 0) (block 1))).blend_rgba8
          (B5G6R5.from_u16 (u16_from_le_bytes (block 2) (block 3))) 1 2 ∧
      bc1_palette block 3 = ⟨0, 0, 0, 0⟩) ∧
    (u16_from_le_bytes (block 0) (block 1) > u16_from_le_bytes (block 2) (block 3) →
      bc1_palette block 2 =
        (B5G6R5.from_u16 (u16_from_le_bytes (block 0) (block 1))).blend_rgba8
          (B5G6R5.from_u16 (u16_from_le_bytes (block 2) (block 3))) 1 3 ∧
      bc1_palette block 3 =
        (B5G6R5.from_u16 (u16_from_le_bytes (block 0) (block 1))).blend_rgba8
          (B5G6R5.from_u16 (u16_from_le_bytes (block 2) (block 3))) 2 3) ∧
    (bc1_palette block 3 = ⟨0, 0, 0, 0⟩ ↔
      u16_from_le_bytes (block 0) (block 1) ≤ u16_from_le_bytes (block 2) (block 3)) := by
  by_cases h : u16_from_le_bytes (block 0) (block 1) > u16_from_le_bytes (block 2) (block 3)
  · have h4 : bc1_palette block 3 =
        (B5G6R5.from_u16 (u16_from_le_bytes (block 0) (block 1))).blend_rgba8
          (B5G6R5.from_u16 (u16_from_le_bytes (block 2) (block 3))) 2 3 := by
      unfold bc1_palette
      simp [h]
    refine ⟨fun hle => absurd h (not_lt_of_le hle), fun _ => ⟨?_, h4⟩, ?_⟩
    · unfold bc1_palette
      simp [h]
    · rw [h4]
      simp [B5G6R5.blend_rgba8, not_le_of_lt h]
  · refine ⟨fun _ => ⟨?_, ?_⟩, fun hgt => absurd hgt h, ?_⟩ <;>
      · unfold bc1_palette
        simp [h]
        try omega

/-- Closed instance of `claim_C3_bc1_mode_selection` at an all-zero block,
discharging the 3-color-mode hypothesis. -/
theorem claim_C3_bc1_mode_selection_witness :
    bc1_palette (fun _ => 0) 3 = ⟨0, 0, 0, 0⟩ :=
  ((claim_C3_bc1_mode_selection (fun _ => 0)).1 (by decide)).2

/-- C4: the BC7 decoder never returns a pixel array; the source body is an
unconditional abort, modelled as always returning `none`. -/
theorem claim_C4_bc7_never_returns (block : Fin 16 → ℕ) :
    decode_bc7_block block = none :=
  rfl

/-- C5: every pixel of a BC3 decode carries the red, green and blue
channels of the BC1 decode of bytes 8–15 and the alpha channel of the
BC4-unsigned decode of bytes 0–7 at the same position. -/
theorem claim_C5_bc3_composition (block : Fin 16 → ℕ) (p : Fin 16) :
    (decode_bc3_block block p).r = (decode_bc1_block (secondHalf block) p).r ∧
    (decode_bc3_block block p).g = (decode_bc1_block (secondHalf block) p).g ∧
    (decode_bc3_block block p).b = (decode_bc1_block (secondHalf block) p).b ∧
    (decode_bc3_block block p).a = decode_bc4_unsigned_block (firstHalf block) p :=
  ⟨rfl, rfl, rfl, rfl⟩

/-- C6: in a BC2 decode, pixel `2k` has alpha equal to the bit-replicated
low nibble of alpha byte `k` and pixel `2k+1` to the bit-replicated high
nibble of the same byte, while the red, green and blue channels of every
pixel equal those of the BC1 decode of bytes 8–15. -/
theorem claim_C6_bc2_alpha (block : Fin 16 → ℕ) :
    (∀ k : Fin 8,
      (decode_bc2_block block ⟨2 * k.val, by have := k.isLt; omega⟩).a =
        x4_to_x8 (block ⟨k.val, by have := k.isLt; omega⟩ &&& 15) ∧
      (decode_bc2_block block ⟨2 * k.val + 1, by have := k.isLt; omega⟩).a =
        x4_to_x8 (block ⟨k.val, by have := k.isLt; omega⟩ >>> 4)) ∧
    (∀ p : Fin 16,
      (decode_bc2_block block p).r = (decode_bc1_block (secondHalf block) p).r ∧
      (decode_bc2_block block p).g = (decode_bc1_block (secondHalf block) p).g ∧
      (decode_bc2_block block p).b = (decode_bc1_block (secondHalf block) p).b) := by
  refine ⟨fun k => ?_, fun p => ⟨rfl, rfl, rfl⟩⟩
  fin_cases k <;> exact ⟨rfl, rfl⟩

/-- C7: each BC5 pixel is the pair of independent BC4 decodes of the two
8-byte halves (same signedness for both channels), with blue fixed at 0
for the unsigned variant and 128 for the signed variant. -/
theorem claim_C7_bc5_composition (block : Fin 16 → ℕ) (p : Fin 16) :
    ((decode_bc5_unsigned_block block p).r = decode_bc4_unsigned_block (firstHalf block) p ∧
     (decode_bc5_unsigned_block block p).g = decode_bc4_unsigned_block (secondHalf block) p ∧
     (decode_bc5_unsigned_block block p).b = 0) ∧
    ((decode_bc5_signed_block block p).r = decode_bc4_signed_block (firstHalf block) p ∧
     (decode_bc5_signed_block block p).g = decode_bc4_signed_block (secondHalf block) p ∧
     (decode_bc5_signed_block block p).b = 128) :=
  ⟨⟨rfl, rfl, rfl⟩, ⟨rfl, rfl, rfl⟩⟩

/-- C8: a BC3 block whose first 8 bytes are all `0xFF` decodes with alpha
255 on all 16 pixels. -/
theorem claim_C8_bc3_all_ff_alpha (block : Fin 16 → ℕ)
    (h : ∀ i : Fin 8, firstHalf block i = 255) (p : Fin 16) :
    (decode_bc3_block block p).a = 255 := by
  have hfh : firstHalf block = fun _ => 255 := funext h
  show decode_bc4_unsigned_block (firstHalf block) p = 255
  rw [hfh]
  revert p
  decide

/-- Closed instance of `claim_C8_bc3_all_ff_alpha` at the all-`0xFF`
block, discharging the alpha-half hypothesis. -/
theorem claim_C8_bc3_all_ff_alpha_witness :
    (∀ i : Fin 8, firstHalf (fun _ => 255) i = 255) ∧
    (decode_bc3_block (fun _ => 255) 0).a = 255 :=
  ⟨fun _ => rfl, claim_C8_bc3_all_ff_alpha (fun _ => 255) (fun _ => rfl) 0⟩

lemma interpolation_sum_le (c0 c1 w f B : ℕ) (h0 : c0 ≤ 255) (h1 : c1 ≤ 255)
    (hw : w - f + f = w) (hB : B = 255 * w) : c0 * (w - f) + c1 * f ≤ B := by
  calc c0 * (w - f) + c1 * f ≤ 255 * (w - f) + 255 * f :=
        Nat.add_le_add (Nat.mul_le_mul_right _ h0) (Nat.mul_le_mul_right _ h1)
    _ = 255 * (w - f + f) := by ring
    _ = B := by rw [hw, hB]

/-- C9: for reference bytes at most 255 and every interpolation factor the
source uses, the intermediate of the BC4-unsigned interpolation stays
below 2^16 and the quotient is at most 255, so the source's `u16`
arithmetic and final `u8` cast are exact. -/
theorem claim_C9_no_overflow (c0 c1 f : ℕ) (h0 : c0 ≤ 255) (h1 : c1 ≤ 255) :
    (1 ≤ f → f ≤ 6 →
      c0 * (7 - f) * 2 + c1 * f * 2 + 7 < 65536 ∧ interpolate6 c0 c1 f ≤ 255) ∧
    (1 ≤ f → f ≤ 4 →
      c0 * (5 - f) * 2 + c1 * f * 2 + 5 < 65536 ∧ interpolate4 c0 c1 f ≤ 255) := by
  constructor
  · intro _ hf6
    have hsum : c0 * (7 - f) + c1 * f ≤ 1785 :=
      interpolation_sum_le c0 c1 7 f 1785 h0 h1 (by omega) (by norm_num)
    constructor
    · nlinarith [hsum]
    · have hx : c0 * (7 - f) * 2 + c1 * f * 2 + 7 ≤ 3577 := by nlinarith [hsum]
      calc interpolate6 c0 c1 f = (c0 * (7 - f) * 2 + c1 * f * 2 + 7) / 14 := rfl
        _ ≤ 3577 / 14 := Nat.div_le_div_right hx
        _ = 255 := by norm_num
  · intro _ hf4
    have hsum : c0 * (5 - f) + c1 * f ≤ 1275 :=
      interpolation_sum_le c0 c1 5 f 1275 h0 h1 (by omega) (by norm_num)
    constructor
    · nlinarith [hsum]
    · have hx : c0 * (5 - f) * 2 + c1 * f * 2 + 5 ≤ 2555 := by nlinarith [hsum]
      calc interpolate4 c0 c1 f = (c0 * (5 - f) * 2 + c1 * f * 2 + 5) / 10 := rfl
        _ ≤ 2555 / 10 := Nat.div_le_div_right hx
        _ = 255 := by norm_num

/-- Closed instance of `claim_C9_no_overflow` at the extreme references
`(255, 255)` and the largest factors, discharging all hypotheses. -/
theorem claim_C9_no_overflow_witness :
    (255 * (7 - 6) * 2 + 255 * 6 * 2 + 7 < 65536 ∧ interpolate6 255 255 6 ≤ 255) ∧
    (255 * (5 - 4) * 2 + 255 * 4 * 2 + 5 < 65536 ∧ interpolate4 255 255 4 ≤ 255) :=
  ⟨(claim_C9_no_overflow 255 255 6 (by decide) (by decide)).1 (by decide) (by decide),
   (claim_C9_no_overflow 255 255 4 (by decide) (by decide)).2 (by decide) (by decide)⟩

/-- C10: every palette lookup of the BC1 and BC4 decoders is in bounds for
every bit pattern: the masked 2-bit BC1 index is below the palette size 4
and the masked 3-bit BC4 index (shared by the unsigned and signed
decoders) is below the palette size 8. -/
theorem claim_C10_index_bounds (block : Fin 8 → ℕ) (p : Fin 16) :
    bc1_index block p < 4 ∧ bc4_index block p < 8 :=
  ⟨bc1_index_lt block p, bc4_index_lt block p⟩

end BC
